import Mathlib

/-!
Verification development for the claim/attestation SDK core.

The definitions below are a shallow embedding of the TypeScript sources:

* `src/requestforattestation/RequestForAttestation.ts` — the salted claim
  hash tree, root hash, redaction and `verifyData`;
* `src/identity/Identity.ts` (verifier part) — `verifyPublicPresentation`,
  the privacy-enhancement typeguards and `verifyPresentation`;
* `packages/core/src/util/DataUtils.ts` — `validateLegitimations`;
* `credential/Credential.ts` — `fromRequestAndAttestation`'s stored request.

Hashing (blake2b in `Crypto.ts`, not part of the embedded sources) is
modelled as a free term algebra: `HashData` terms are equal exactly when
they were produced from the same inputs, which is the standard idealisation
of a collision-free digest.  Signatures (`Identity.signStr` / `Crypto.verify`)
are likewise modelled as the pair of the signer address and the signed digest.
Nonces (`uuid()`) are modelled by an explicit nonce stream `ng : Nat → String`
consumed in the order the source calls `generateHash`.
-/

/-- Term model of digests. `nonced n v` stands for `hashObjectAsStr(v, n)`
(`hashNonceValue` in RequestForAttestation.ts), `noncedMissing n` for the
digest recomputed when the hashed value is absent, `raw s` for the bytes of
a plain string leaf (`coToUInt8`), and `rootCons`/`rootNil` encode the leaf
list whose concatenation is digested by `getHashRoot`. -/
inductive HashData : Type where
  | raw (s : String)
  | nonced (nonce : String) (value : String)
  | noncedMissing (nonce : String)
  | rootNil
  | rootCons (head tail : HashData)
deriving DecidableEq, Repr, Inhabited

/-- Digest of the concatenated leaf list: `getHashRoot(leaves) =
hash(u8aConcat(...leaves))` in RequestForAttestation.ts, modelled as the
injective term encoding of the leaf list. -/
def getHashRoot (leaves : List HashData) : HashData :=
  leaves.foldr HashData.rootCons HashData.rootNil

/-- NonceHash of `types/RequestForAttestation`. The nonce is optional because
redaction (`removeClaimProperties` / `removeClaimOwner`) deletes it. -/
structure NonceHash where
  nonce : Option String
  hash : HashData
deriving DecidableEq, Repr

/-- Model of a signature string produced by `Identity.signStr(rootHash)`:
the signer's address together with the signed digest. `Crypto.verify`
accepts exactly this pair. -/
structure SignatureData where
  signer : String
  signedData : HashData
deriving DecidableEq, Repr

/-- IClaim: schema hash, contents map (association list in object-key
insertion order, the order `Object.keys` iterates), owner address. The owner
is optional because `removeClaimOwner` deletes it. -/
structure ClaimData where
  cTypeHash : String
  contents : List (String × String)
  owner : Option String
deriving DecidableEq, Repr

/-- IAttestation: on-ledger vouching record for a request's root hash. -/
structure AttestationData where
  claimHash : HashData
  cTypeHash : String
  owner : String
  revoked : Bool
  delegationId : Option String
deriving DecidableEq, Repr

/-- Identity as consumed by the hash-tree builder: its public address. -/
structure IdentityData where
  address : String
deriving DecidableEq, Repr

mutual
/-- IRequestForAttestation of RequestForAttestation.ts: claim, legitimations
(each a full attested claim: request + attestation), the owner and schema
nonce-hashes, the per-field hash tree (association list in object-key
order), root hash, claimer signature and optional delegation id. -/
inductive RequestForAttestation : Type where
  | mk (claim : ClaimData) (legitimations : AttestedClaimList) (claimOwner : NonceHash)
       (claimerSignature : SignatureData) (claimHashTree : List (String × NonceHash))
       (cTypeHash : NonceHash) (rootHash : HashData) (delegationId : Option String)

/-- Ordered sequence of legitimations; each entry is an AttestedClaim
(request + attestation), mirroring `legitimations: AttestedClaim[]`. -/
inductive AttestedClaimList : Type where
  | nil
  | cons (request : RequestForAttestation) (attestation : AttestationData)
         (rest : AttestedClaimList)
end

def RequestForAttestation.claim : RequestForAttestation → ClaimData
  | .mk c _ _ _ _ _ _ _ => c

def RequestForAttestation.legitimations : RequestForAttestation → AttestedClaimList
  | .mk _ l _ _ _ _ _ _ => l

def RequestForAttestation.claimOwner : RequestForAttestation → NonceHash
  | .mk _ _ co _ _ _ _ _ => co

def RequestForAttestation.claimerSignature : RequestForAttestation → SignatureData
  | .mk _ _ _ s _ _ _ _ => s

def RequestForAttestation.claimHashTree : RequestForAttestation → List (String × NonceHash)
  | .mk _ _ _ _ t _ _ _ => t

def RequestForAttestation.cTypeHash : RequestForAttestation → NonceHash
  | .mk _ _ _ _ _ ct _ _ => ct

def RequestForAttestation.rootHash : RequestForAttestation → HashData
  | .mk _ _ _ _ _ _ h _ => h

def RequestForAttestation.delegationId : RequestForAttestation → Option String
  | .mk _ _ _ _ _ _ _ d => d

/-- Attestation claim hashes of a legitimation list, in order; these are the
leaves `legitimation.attestation.claimHash` pushed by `getHashLeaves`. -/
def AttestedClaimList.claimHashes : AttestedClaimList → List HashData
  | .nil => []
  | .cons _ att rest => att.claimHash :: rest.claimHashes

/-- Length of a legitimation list. -/
def AttestedClaimList.length : AttestedClaimList → Nat
  | .nil => 0
  | .cons _ _ rest => rest.length + 1

/-- Errors thrown by `RequestForAttestation.verifyData` and the validators it
calls. `hashMismatch name` is the error `validateNoncedHash` throws for the
named component ("Claim Owner", "Claim CType Hash", "hash tree property k");
the remaining constructors are the other `throw` sites of `verifyData` and
`validateLegitimations`. -/
inductive VerifyError : Type where
  | hashMismatch (component : String)
  | propertyNotInTree (k : String)
  | legitimationsUnverifiable
  | rootHashMismatch
  | signatureUnverifiable
deriving DecidableEq, Repr

/-- Digest recomputed from a nonce and a possibly absent value; an absent
value (redacted owner) recomputes to a digest distinct from every
value digest. -/
def recomputeNonced (n : String) : Option String → HashData
  | some v => .nonced n v
  | none => .noncedMissing n

/-- Modelled from the spec: `validateNoncedHash` is imported by
RequestForAttestation.ts from `../util/DataUtils`, a module revision not
included under src/. Per the spec's redaction contract the hash of a
redacted leaf is retained while nonce and plaintext are stripped and the
tree still re-verifies, and mismatch errors are raised by recomputing the
digest from the stored nonce and comparing: so when a nonce is present the
stored hash must equal the recomputed one, and a leaf whose nonce was
deleted by redaction is skipped. -/
def validateNoncedHash (nh : NonceHash) (value : Option String) (name : String) :
    Except VerifyError Unit :=
  match nh.nonce with
  | none => .ok ()
  | some n =>
    if nh.hash = recomputeNonced n value then .ok ()
    else .error (.hashMismatch name)

/-- Loop of `verifyData` over `Object.keys(input.claim.contents)`: each
present property must have a tree entry whose nonce-hash matches its value. -/
def checkClaimContents (contents : List (String × String))
    (tree : List (String × NonceHash)) : Except VerifyError Unit :=
  match contents with
  | [] => .ok ()
  | (k, v) :: rest =>
    match tree.lookup k with
    | none => .error (.propertyNotInTree k)
    | some nh => do
      validateNoncedHash nh (some v) ("hash tree property " ++ k)
      checkClaimContents rest tree

/-- Leaf list of `RequestForAttestation.getHashLeaves`: owner hash, schema
hash, the tree hashes in key order, each legitimation's attestation claim
hash in order, and the delegation id when truthy (`if (delegationId)` —
the empty string, like null, is skipped). -/
def getHashLeaves (claimOwner cTypeHash : NonceHash) (tree : List (String × NonceHash))
    (legs : AttestedClaimList) (delegationId : Option String) : List HashData :=
  claimOwner.hash :: cTypeHash.hash :: tree.map (fun kv => kv.2.hash)
    ++ legs.claimHashes
    ++ (match delegationId with
        | some d => if d = "" then [] else [.raw d]
        | none => [])

/-- Root hash of `RequestForAttestation.calculateRootHash`: the digest of the
concatenated leaves, except that a single leaf is returned verbatim
(`hashes.length === 1 ? hashes[0] : getHashRoot(hashes)`). -/
def calculateRootHash (claimOwner cTypeHash : NonceHash) (tree : List (String × NonceHash))
    (legs : AttestedClaimList) (delegationId : Option String) : HashData :=
  let leaves := getHashLeaves claimOwner cTypeHash tree legs delegationId
  if leaves.length = 1 then leaves.headI else getHashRoot leaves

/-- Modelled from the spec: `Crypto.verify(bytes, signature, address)` of
`crypto/Crypto.ts` (not included under src/) checks the signature against
the given address and returns a boolean; with the signature model above it
accepts exactly the signer/digest pair, and when no address is available
(the claim owner was redacted) nothing can verify. -/
def cryptoVerify (message : HashData) (sig : SignatureData) : Option String → Bool
  | some addr => decide (sig.signedData = message) && decide (sig.signer = addr)
  | none => false

mutual
/-- RequestForAttestation.verifyData: validates the owner and schema
nonce-hashes, every present claim property against the tree, the
legitimations, then recomputes the root hash and checks the claimer
signature, throwing the corresponding error at the first failure. -/
def RequestForAttestation.verifyData : RequestForAttestation → Except VerifyError Bool
  | .mk claim legs claimOwner sig tree ctHash root deleg => do
    validateNoncedHash claimOwner claim.owner "Claim Owner"
    validateNoncedHash ctHash (some claim.cTypeHash) "Claim CType Hash"
    checkClaimContents claim.contents tree
    validateLegitimations legs
    if root = calculateRootHash claimOwner ctHash tree legs deleg then
      if cryptoVerify root sig claim.owner then pure true
      else .error .signatureUnverifiable
    else .error .rootHashMismatch

/-- DataUtils.validateLegitimations: every legitimation must satisfy
`AttestedClaim.verifyData`, i.e. (modelled from the spec, AttestedClaim.ts
is not under src/) its request's `verifyData` recursively and the binding of
the request's root hash to the attestation's claim hash; a legitimation
whose binding fails throws ERROR_LEGITIMATIONS_UNVERIFIABLE, errors thrown
inside the recursive `verifyData` propagate. -/
def validateLegitimations : AttestedClaimList → Except VerifyError Unit
  | .nil => .ok ()
  | .cons req att rest => do
    let b ← RequestForAttestation.verifyData req
    if b && decide (req.rootHash = att.claimHash) then validateLegitimations rest
    else .error .legitimationsUnverifiable
end

/-- Modelled from the spec: `AttestedClaim.verifyData` (AttestedClaim.ts is
not under src/) verifies the embedded request's data and the binding of its
root hash to the attestation's claim hash (spec 4.4: "the parent's root hash
binds to `legitimation.attestation.claimHash`"). -/
def AttestedClaim.verifyData (req : RequestForAttestation) (att : AttestationData) :
    Except VerifyError Bool := do
  let b ← RequestForAttestation.verifyData req
  pure (b && decide (req.rootHash = att.claimHash))

/-- RequestForAttestation.verifySignature: checks the claimer signature
against the stored root hash and the claim owner alone. -/
def RequestForAttestation.verifySignature (r : RequestForAttestation) : Bool :=
  cryptoVerify r.rootHash r.claimerSignature r.claim.owner

/-- `generateHash`: fresh nonce plus `hashNonceValue(nonce, value)`. -/
def generateHash (nonce : String) (value : String) : NonceHash :=
  ⟨some nonce, .nonced nonce value⟩

/-- `generateHashTree`: one `generateHash` per contents entry in key order,
drawing the fresh nonces `ng off, ng (off+1), ...` in call order. -/
def generateHashTree (ng : Nat → String) (off : Nat) :
    List (String × String) → List (String × NonceHash)
  | [] => []
  | (k, v) :: rest => (k, generateHash (ng off) v) :: generateHashTree ng (off + 1) rest

/-- Body of `fromClaimAndIdentity` after the owner guard: hash the owner
(nonce 0), the schema hash (nonce 1) and the contents (nonces 2, 3, ...),
compute the root hash over the leaves and sign it with the identity. -/
def buildReq (ng : Nat → String) (claim : ClaimData) (identity : IdentityData)
    (legs : AttestedClaimList) (deleg : Option String) : RequestForAttestation :=
  let co := generateHash (ng 0) identity.address
  let ct := generateHash (ng 1) claim.cTypeHash
  let tree := generateHashTree ng 2 claim.contents
  let root := calculateRootHash co ct tree legs deleg
  .mk claim legs co ⟨identity.address, root⟩ tree ct root deleg

/-- Errors of `fromClaimAndIdentity`: the owner guard `throw Error('Claim
owner is not Identity')`, or an error thrown by the constructor's
`isIRequestForAttestation` validation (which runs `verifyData`). -/
inductive BuildError : Type where
  | ownerMismatch
  | validationFailed (e : VerifyError)
deriving DecidableEq, Repr

/-- RequestForAttestation.fromClaimAndIdentity: requires the claim owner to
be the identity's address, builds the salted hash tree, root hash and
claimer signature, and runs the constructor's `verifyData` validation. -/
def fromClaimAndIdentity (ng : Nat → String) (claim : ClaimData) (identity : IdentityData)
    (legs : AttestedClaimList) (deleg : Option String) :
    Except BuildError RequestForAttestation :=
  if claim.owner = some identity.address then
    let r := buildReq ng claim identity legs deleg
    match r.verifyData with
    | .ok _ => .ok r
    | .error e => .error (.validationFailed e)
  else .error .ownerMismatch

/-- RequestForAttestation.removeClaimProperties for a single property:
requires a tree entry for the key, deletes the plaintext from the claim
contents and the nonce from the tree entry. -/
def removeClaimProperty (r : RequestForAttestation) (k : String) :
    Except String RequestForAttestation :=
  match r with
  | .mk claim legs co sig tree ct root deleg =>
    if (tree.lookup k).isSome then
      .ok (.mk { claim with contents := claim.contents.filter (fun kv => kv.1 ≠ k) }
             legs co sig
             (tree.map (fun kv => if kv.1 = k then (kv.1, ⟨none, kv.2.hash⟩) else kv))
             ct root deleg)
    else .error ("Property '" ++ k ++ "' not found in claim")

/-- RequestForAttestation.removeClaimProperties: iterates the properties,
throwing when one has no tree entry. -/
def removeClaimProperties (r : RequestForAttestation) (properties : List String) :
    Except String RequestForAttestation :=
  properties.foldlM removeClaimProperty r

/-- RequestForAttestation.removeClaimOwner: deletes the claim owner and the
owner leaf's nonce. -/
def RequestForAttestation.removeClaimOwner : RequestForAttestation → RequestForAttestation
  | .mk claim legs co sig tree ct root deleg =>
    .mk { claim with owner := none } legs ⟨none, co.hash⟩ sig tree ct root deleg

/-- Mutation of a claim property value (`claim.contents[k] = v`) without
recomputing the root hash. -/
def RequestForAttestation.setContentValue (r : RequestForAttestation) (k v : String) :
    RequestForAttestation :=
  match r with
  | .mk claim legs co sig tree ct root deleg =>
    .mk { claim with contents := claim.contents.map (fun kv => if kv.1 = k then (kv.1, v) else kv) }
      legs co sig tree ct root deleg

/-- Mutation of the claim owner (`claim.owner = o`) without recomputing the
root hash. -/
def RequestForAttestation.setOwnerValue (r : RequestForAttestation) (o : String) :
    RequestForAttestation :=
  match r with
  | .mk claim legs co sig tree ct root deleg =>
    .mk { claim with owner := some o } legs co sig tree ct root deleg

/-- Mutation of the claim schema hash (`claim.cTypeHash = c`) without
recomputing the root hash. -/
def RequestForAttestation.setCTypeValue (r : RequestForAttestation) (c : String) :
    RequestForAttestation :=
  match r with
  | .mk claim legs co sig tree ct root deleg =>
    .mk { claim with cTypeHash := c } legs co sig tree ct root deleg

/-- Mutation of a leaf hash in the claim hash tree
(`claimHashTree[k].hash = h`) without recomputing the root hash. -/
def RequestForAttestation.setTreeHash (r : RequestForAttestation) (k : String) (h : HashData) :
    RequestForAttestation :=
  match r with
  | .mk claim legs co sig tree ct root deleg =>
    .mk claim legs co sig
      (tree.map (fun kv => if kv.1 = k then (kv.1, ⟨kv.2.nonce, h⟩) else kv))
      ct root deleg

mutual
/-- Depth of the legitimation chain below a request: 0 when it embeds no
legitimations, otherwise one more than the deepest embedded request. -/
def RequestForAttestation.legDepth : RequestForAttestation → Nat
  | .mk _ legs _ _ _ _ _ _ => legsDepth legs

/-- Depth helper over a legitimation list. -/
def legsDepth : AttestedClaimList → Nat
  | .nil => 0
  | .cons req _ rest => max (req.legDepth + 1) (legsDepth rest)
end

/-- Distinctness of the keys of an association list (object keys in the
source are unique by construction). -/
def keysNodup {α : Type} (l : List (String × α)) : Prop :=
  (l.map Prod.fst).Nodup

instance {α : Type} (l : List (String × α)) : Decidable (keysNodup l) :=
  inferInstanceAs (Decidable (l.map Prod.fst).Nodup)

/-- Specification-side leaf list, written from the claim's words: the
ordered leaf set `[claimOwner.hash, cTypeHash.hash, each claimHashTree[k].hash
in key order, each legitimation.attestation.claimHash in order, delegationId
if present]` (a present-but-empty delegation id counts as absent, matching
the source's truthiness reading of "present"). -/
def specLeafList (claimOwner cTypeHash : NonceHash) (tree : List (String × NonceHash))
    (legs : AttestedClaimList) (delegationId : Option String) : List HashData :=
  [claimOwner.hash, cTypeHash.hash] ++ tree.map (fun kv => kv.2.hash)
    ++ legs.claimHashes
    ++ (match delegationId with
        | some d => if d = "" then [] else [HashData.raw d]
        | none => [])

/-- Specification-side root hash, written from the claim's words: the hash
of the concatenated leaves, except that a one-element leaf list yields that
leaf verbatim without an extra hashing round. -/
def specRootHash (leaves : List HashData) : HashData :=
  if leaves.length = 1 then leaves.headI else getHashRoot leaves

/-- Specification-side root of a whole request, recomputed from its stored
components. -/
def RequestForAttestation.specRoot (r : RequestForAttestation) : HashData :=
  specRootHash (specLeafList r.claimOwner r.cTypeHash r.claimHashTree
    r.legitimations r.delegationId)

/-- Concrete nonce stream used by chain and witness constructions. -/
def ngStream : Nat → String := fun n => "nonce-" ++ toString n

/-- Valid legitimation chain of depth `n`: the base request embeds no
legitimations; level `n+1` embeds the level-`n` request as a legitimation
whose attestation claim hash is that request's root hash. -/
def chainReq : Nat → RequestForAttestation
  | 0 => buildReq ngStream ⟨"0xbase", [], some "chain-addr"⟩ ⟨"chain-addr"⟩ .nil none
  | n + 1 =>
    let child := chainReq n
    buildReq ngStream ⟨"0xlink", [], some "chain-addr"⟩ ⟨"chain-addr"⟩
      (.cons child ⟨child.rootHash, "0xlink", "attester-addr", false, none⟩ .nil) none

/-- A claim as presented to the verifier in plain mode: the keys of its
(possibly redacted) claim contents, as returned by `getAttributes()`, and
the ledger-dependent outcome of `AttestedClaim.verify()` for it (attestation
lookup and revocation are external collaborators). -/
structure PresentedClaim where
  contentKeys : List String
  verifyResult : Bool
deriving DecidableEq, Repr

/-- IPartialRequest: one schema-scoped property request of the session. -/
structure PartReq where
  ctype : Option String
  properties : List String
deriving DecidableEq, Repr

/-- IVerifierSession: the requested property sets in order and whether the
verifier allows privacy enhancement (the opaque gabi session state is not
modelled). -/
structure VerifierSession where
  requestedProperties : List PartReq
  allowedPrivacyEnhancement : Bool
deriving DecidableEq, Repr

/-- Disclosed-property paths computed in `verifyPublicPresentation`:
`claim.contents.<key>` for each attribute of the presented claim, then
always `claim.cTypeHash` and `claim.owner`. -/
def rawProperties (ac : PresentedClaim) : List String :=
  ac.contentKeys.map (fun prop => "claim.contents." ++ prop)
    ++ ["claim.cTypeHash", "claim.owner"]

/-- One positional slot of `verifyPublicPresentation`: every requested path
must be among the disclosed paths, and `AttestedClaim.verify` must succeed. -/
def slotVerified (requested : PartReq) (ac : PresentedClaim) : Bool :=
  requested.properties.all (fun p => (rawProperties ac).contains p) && ac.verifyResult

/-- verifyPublicPresentation of Identity.ts (verifier part): rejects with
`verified=false, claims=[]` when the number of presented claims differs from
the number of requested property sets; otherwise verifies each positional
slot, reports the conjunction, and returns the presented claims only when
all slots verified. -/
def verifyPublicPresentation (attestedClaims : List PresentedClaim)
    (session : VerifierSession) : Bool × List PresentedClaim :=
  if attestedClaims.length ≠ session.requestedProperties.length then
    (false, [])
  else
    let allVerified := (session.requestedProperties.zip attestedClaims).map
      (fun p => slotVerified p.1 p.2)
    let verified := !allVerified.contains false
    (verified, if verified then attestedClaims else [])

/-- Element of the `_latestAccumulators` argument: whether it is an instance
of `gabi.Accumulator`. -/
structure AccElem where
  isAccumulator : Bool
deriving DecidableEq, Repr

/-- Element of the `_attesterPubKeys` argument: whether it is an instance of
`PublicAttesterIdentity`. -/
structure AttKeyElem where
  isPublicAttesterIdentity : Bool
deriving DecidableEq, Repr

/-- accumulatorArrTypeguard: the argument must be a non-empty array whose
every entry is an `Accumulator` instance (`none` models a non-array or
undefined argument). -/
def accumulatorArrTypeguard : Option (List AccElem) → Bool
  | some l => decide (l ≠ []) && l.all (fun a => a.isAccumulator)
  | none => false

/-- publicAttesterArrTypeguard: the argument must be a non-empty array whose
every entry is a `PublicAttesterIdentity` instance. -/
def publicAttesterArrTypeguard : Option (List AttKeyElem) → Bool
  | some l => decide (l ≠ []) && l.all (fun a => a.isPublicAttesterIdentity)
  | none => false

/-- Body of the message passed to `verifyPresentation`: a plain presentation
(SUBMIT_CLAIMS_FOR_CTYPES_CLASSIC, carrying attested claims), a
privacy-enhanced one (SUBMIT_CLAIMS_FOR_CTYPES_PE, carrying an opaque
combined proof), or any other message type. -/
inductive MessageBody : Type where
  | submitClaimsClassic (content : List PresentedClaim)
  | submitClaimsPE (proof : String)
  | otherType (t : String)
deriving DecidableEq, Repr

/-- Errors thrown by `verifyPresentation`: ERROR_PE_VERIFICATION names which
of the two privacy-enhancement inputs failed its typeguard;
ERROR_MESSAGE_TYPE names the offending message type (the two accepted types
are the classic and privacy-enhanced submit-claims types). -/
inductive VerifierError : Type where
  | peVerification (accumulatorsMissing keysMissing : Bool)
  | messageType (actual : String)
deriving DecidableEq, Repr

/-- A claim returned by `verifyPresentation`: an attested claim in plain
mode, or an opaque disclosed claim from the gabi library in
privacy-enhanced mode. -/
inductive OutClaim : Type where
  | classic (c : PresentedClaim)
  | pe (s : String)
deriving DecidableEq, Repr

/-- verifyPresentation of Identity.ts (verifier part). The result of
`gabi.Verifier.verifyCombinedPresentation` (an external collaborator) is
passed in as `gabiResult`. Control flow of the source: a classic message is
checked by `verifyPublicPresentation`; a privacy-enhanced message first runs
both typeguards and throws ERROR_PE_VERIFICATION on failure, then delegates
to the gabi library only when the session allows privacy enhancement,
falling through to `verified=false, claims=[]` otherwise; any other message
type throws ERROR_MESSAGE_TYPE. -/
def verifyPresentation (msg : MessageBody) (session : VerifierSession)
    (latestAccumulators : Option (List AccElem)) (attesterPubKeys : Option (List AttKeyElem))
    (gabiResult : Bool × List String) : Except VerifierError (Bool × List OutClaim) :=
  match msg with
  | .submitClaimsClassic content =>
    let res := verifyPublicPresentation content session
    .ok (res.1, res.2.map OutClaim.classic)
  | .submitClaimsPE _ =>
    let accFailure := !accumulatorArrTypeguard latestAccumulators
    let keyFailure := !publicAttesterArrTypeguard attesterPubKeys
    if accFailure || keyFailure then
      .error (.peVerification accFailure keyFailure)
    else if session.allowedPrivacyEnhancement then
      .ok (gabiResult.1, gabiResult.2.map OutClaim.pe)
    else .ok (false, [])
  | .otherType t => .error (.messageType t)

/-- IRequestForAttestation as a JavaScript object for the credential module:
object-valued fields are references (modelled as numbers identifying the
referenced object), primitive fields are copied by value, and the
privacy-enhancement slot optionally references a gabi session. -/
structure ReqObj where
  claimRef : Nat
  legitimationsRef : Nat
  claimOwnerRef : Nat
  claimHashTreeRef : Nat
  cTypeHashRef : Nat
  rootHash : String
  claimerSignature : String
  delegationId : Option String
  privacyEnhancement : Option Nat
deriving DecidableEq, Repr

/-- The request stored by `Credential.fromRequestAndAttestation`:
`{ ...request, privacyEnhancement: null }`, a spread copy of the caller's
request object with the privacy-enhancement slot cleared; the spread copies
every field value, so object-valued fields keep referencing the caller's
substructures. -/
def credentialStoredReq (request : ReqObj) : ReqObj :=
  { request with privacyEnhancement := none }

@[simp]
theorem RequestForAttestation.claim_mk (c l co s t ct h d) :
    (RequestForAttestation.mk c l co s t ct h d).claim = c := rfl

@[simp]
theorem RequestForAttestation.legitimations_mk (c l co s t ct h d) :
    (RequestForAttestation.mk c l co s t ct h d).legitimations = l := rfl

@[simp]
theorem RequestForAttestation.claimOwner_mk (c l co s t ct h d) :
    (RequestForAttestation.mk c l co s t ct h d).claimOwner = co := rfl

@[simp]
theorem RequestForAttestation.claimerSignature_mk (c l co s t ct h d) :
    (RequestForAttestation.mk c l co s t ct h d).claimerSignature = s := rfl

@[simp]
theorem RequestForAttestation.claimHashTree_mk (c l co s t ct h d) :
    (RequestForAttestation.mk c l co s t ct h d).claimHashTree = t := rfl

@[simp]
theorem RequestForAttestation.cTypeHash_mk (c l co s t ct h d) :
    (RequestForAttestation.mk c l co s t ct h d).cTypeHash = ct := rfl

@[simp]
theorem RequestForAttestation.rootHash_mk (c l co s t ct h d) :
    (RequestForAttestation.mk c l co s t ct h d).rootHash = h := rfl

@[simp]
theorem RequestForAttestation.delegationId_mk (c l co s t ct h d) :
    (RequestForAttestation.mk c l co s t ct h d).delegationId = d := rfl

theorem calculateRootHash_eq_spec (co ct : NonceHash) (tree : List (String × NonceHash))
    (legs : AttestedClaimList) (deleg : Option String) :
    calculateRootHash co ct tree legs deleg = specRootHash (specLeafList co ct tree legs deleg) := rfl

theorem lookup_generateHashTree (ng : Nat → String) :
    ∀ (cs : List (String × String)) (off : Nat), keysNodup cs →
    ∀ k v, (k, v) ∈ cs →
    ∃ n, (generateHashTree ng off cs).lookup k = some ⟨some n, .nonced n v⟩
  | [], _, _, k, v, hm => absurd hm (List.not_mem_nil _)
  | (a, b) :: rest, off, hnd, k, v, hm => by
    simp only [keysNodup, List.map_cons, List.nodup_cons] at hnd
    rcases List.mem_cons.mp hm with h | h
    · cases h
      exact ⟨ng off, by simp [generateHashTree, generateHash, List.lookup]⟩
    · have hak : k ≠ a := by
        rintro rfl
        exact hnd.1 (List.mem_map.mpr ⟨(k, v), h, rfl⟩)
      have hbeq : (k == a) = false := beq_eq_false_iff_ne.mpr hak
      have := lookup_generateHashTree ng rest (off + 1) hnd.2 k v h
      simpa [generateHashTree, List.lookup, hbeq] using this

theorem keys_generateHashTree (ng : Nat → String) (off : Nat) (cs : List (String × String)) :
    (generateHashTree ng off cs).map Prod.fst = cs.map Prod.fst := by
  induction cs generalizing off with
  | nil => rfl
  | cons kv rest ih => simp [generateHashTree, ih]

@[simp]
theorem exceptBindOk {ε α β : Type} (a : α) (f : α → Except ε β) :
    (Except.ok a >>= f : Except ε β) = f a := rfl

@[simp]
theorem exceptBindError {ε α β : Type} (e : ε) (f : α → Except ε β) :
    (Except.error e >>= f : Except ε β) = Except.error e := rfl

@[simp]
theorem exceptPureEq {ε α : Type} (a : α) : (pure a : Except ε α) = Except.ok a := rfl

theorem checkClaimContents_ok {cs : List (String × String)} {tree : List (String × NonceHash)}
    (h : ∀ kv ∈ cs, ∃ n, tree.lookup kv.1 = some ⟨some n, .nonced n kv.2⟩) :
    checkClaimContents cs tree = .ok () := by
  induction cs with
  | nil => rfl
  | cons kv rest ih =>
    obtain ⟨a, b⟩ := kv
    obtain ⟨n, hn⟩ := h (a, b) (List.mem_cons_self _ _)
    simp only [checkClaimContents, hn, validateNoncedHash, recomputeNonced]
    rw [if_pos trivial]
    simp only [exceptBindOk]
    exact ih (fun kv hkv => h kv (List.mem_cons_of_mem _ hkv))

theorem buildReq_verifyData (ng : Nat → String) (claim : ClaimData) (identity : IdentityData)
    (legs : AttestedClaimList) (deleg : Option String)
    (how : claim.owner = some identity.address)
    (hnd : keysNodup claim.contents)
    (hlegs : validateLegitimations legs = .ok ()) :
    (buildReq ng claim identity legs deleg).verifyData = .ok true := by
  have hcc : checkClaimContents claim.contents (generateHashTree ng 2 claim.contents) = .ok () :=
    checkClaimContents_ok (fun kv hkv =>
      lookup_generateHashTree ng claim.contents 2 hnd kv.1 kv.2 hkv)
  simp [buildReq, RequestForAttestation.verifyData, how, generateHash,
    validateNoncedHash, recomputeNonced, hcc, hlegs, cryptoVerify]

theorem fromClaimAndIdentity_ok (ng : Nat → String) (claim : ClaimData)
    (identity : IdentityData) (legs : AttestedClaimList) (deleg : Option String)
    (how : claim.owner = some identity.address)
    (hnd : keysNodup claim.contents)
    (hlegs : validateLegitimations legs = .ok ()) :
    fromClaimAndIdentity ng claim identity legs deleg =
      .ok (buildReq ng claim identity legs deleg) := by
  have hv := buildReq_verifyData ng claim identity legs deleg how hnd hlegs
  simp [fromClaimAndIdentity, how, hv]

theorem verifyData_ok_rootHash {r : RequestForAttestation}
    (h : r.verifyData = .ok true) : r.rootHash = r.specRoot := by
  obtain ⟨claim, legs, co, sig, tree, ct, root, deleg⟩ := r
  simp only [RequestForAttestation.verifyData] at h
  cases h1 : validateNoncedHash co claim.owner "Claim Owner" with
  | error e => rw [h1] at h; simp at h
  | ok u =>
    rw [h1] at h; simp only [exceptBindOk] at h
    cases h2 : validateNoncedHash ct (some claim.cTypeHash) "Claim CType Hash" with
    | error e => rw [h2] at h; simp at h
    | ok u =>
      rw [h2] at h; simp only [exceptBindOk] at h
      cases h3 : checkClaimContents claim.contents tree with
      | error e => rw [h3] at h; simp at h
      | ok u =>
        rw [h3] at h; simp only [exceptBindOk] at h
        cases h4 : validateLegitimations legs with
        | error e => rw [h4] at h; simp at h
        | ok u =>
          rw [h4] at h; simp only [exceptBindOk] at h
          by_cases hr : root = calculateRootHash co ct tree legs deleg
          · rw [calculateRootHash_eq_spec] at hr
            simpa [RequestForAttestation.specRoot] using hr
          · rw [if_neg hr] at h; simp at h

theorem fromClaimAndIdentity_ok_inv {ng : Nat → String} {claim : ClaimData}
    {identity : IdentityData} {legs : AttestedClaimList} {deleg : Option String}
    {r : RequestForAttestation}
    (hok : fromClaimAndIdentity ng claim identity legs deleg = .ok r) :
    r = buildReq ng claim identity legs deleg := by
  simp only [fromClaimAndIdentity] at hok
  by_cases how : claim.owner = some identity.address
  · rw [if_pos how] at hok
    cases hv : (buildReq ng claim identity legs deleg).verifyData with
    | ok b => rw [hv] at hok; exact (Except.ok.inj hok).symm
    | error e => rw [hv] at hok; simp at hok
  · rw [if_neg how] at hok; simp at hok

theorem buildReq_rootHash_spec (ng : Nat → String) (claim : ClaimData)
    (identity : IdentityData) (legs : AttestedClaimList) (deleg : Option String) :
    (buildReq ng claim identity legs deleg).rootHash =
      (buildReq ng claim identity legs deleg).specRoot := by
  simp only [buildReq, RequestForAttestation.specRoot, RequestForAttestation.rootHash_mk,
    RequestForAttestation.claimOwner_mk, RequestForAttestation.cTypeHash_mk,
    RequestForAttestation.claimHashTree_mk, RequestForAttestation.legitimations_mk,
    RequestForAttestation.delegationId_mk]
  exact calculateRootHash_eq_spec _ _ _ _ _

/-- Witness fixture: a concrete two-field claim. -/
def wClaim : ClaimData := ⟨"0xctype-w", [("name", "Ralph"), ("age", "12")], some "w-addr"⟩

/-- Witness fixture: the owning identity of `wClaim`. -/
def wIdent : IdentityData := ⟨"w-addr"⟩

/-- C1: for every request built by `fromClaimAndIdentity` the stored root
hash is the digest of the ordered leaf list [owner hash, schema hash, tree
hashes in key order, legitimation attestation claim hashes in order,
delegation id if present] — verbatim leaf when the list has exactly one
element — and `verifyData` recomputes this value and accepts only when it
equals the stored root hash. -/
theorem spec_C1 (ng : Nat → String) (claim : ClaimData) (identity : IdentityData)
    (legs : AttestedClaimList) (deleg : Option String) (r r' : RequestForAttestation)
    (hok : fromClaimAndIdentity ng claim identity legs deleg = .ok r)
    (hacc : r'.verifyData = .ok true) :
    r.rootHash = r.specRoot ∧ r'.rootHash = r'.specRoot := by
  constructor
  · rw [fromClaimAndIdentity_ok_inv hok]
    exact buildReq_rootHash_spec ng claim identity legs deleg
  · exact verifyData_ok_rootHash hacc

/-- Witness for C1 at a concrete claim and identity. -/
theorem spec_C1_witness :
    (buildReq ngStream wClaim wIdent .nil none).rootHash =
      (buildReq ngStream wClaim wIdent .nil none).specRoot ∧
    (buildReq ngStream wClaim wIdent .nil none).rootHash =
      (buildReq ngStream wClaim wIdent .nil none).specRoot :=
  spec_C1 ngStream wClaim wIdent .nil none _ _ (by rfl) (by rfl)

/-- C8: a claim with empty contents, no legitimations and no delegation id
yields a leaf list of exactly the two leaves owner hash and schema hash, so
the single-leaf shortcut is not taken and the root hash differs from the
schema leaf's hash. -/
theorem spec_C8 (ng : Nat → String) (identity : IdentityData) (ct : String)
    (r : RequestForAttestation)
    (hok : fromClaimAndIdentity ng ⟨ct, [], some identity.address⟩ identity .nil none = .ok r) :
    r.rootHash ≠ r.cTypeHash.hash ∧
    (specLeafList r.claimOwner r.cTypeHash r.claimHashTree r.legitimations
      r.delegationId).length = 2 := by
  rw [fromClaimAndIdentity_ok_inv hok]
  constructor
  · simp [buildReq, calculateRootHash, getHashLeaves, getHashRoot, generateHash,
      generateHashTree, AttestedClaimList.claimHashes]
  · simp [buildReq, specLeafList, generateHashTree, AttestedClaimList.claimHashes]

/-- Witness for C8 at a concrete empty claim. -/
theorem spec_C8_witness :
    (buildReq ngStream ⟨"0xct8", [], some "w-addr"⟩ wIdent .nil none).rootHash ≠
      (buildReq ngStream ⟨"0xct8", [], some "w-addr"⟩ wIdent .nil none).cTypeHash.hash ∧
    (specLeafList (buildReq ngStream ⟨"0xct8", [], some "w-addr"⟩ wIdent .nil none).claimOwner
      (buildReq ngStream ⟨"0xct8", [], some "w-addr"⟩ wIdent .nil none).cTypeHash
      (buildReq ngStream ⟨"0xct8", [], some "w-addr"⟩ wIdent .nil none).claimHashTree
      (buildReq ngStream ⟨"0xct8", [], some "w-addr"⟩ wIdent .nil none).legitimations
      (buildReq ngStream ⟨"0xct8", [], some "w-addr"⟩ wIdent .nil none).delegationId).length = 2 :=
  spec_C8 ngStream wIdent "0xct8" _ (by rfl)

/-- C9: `fromClaimAndIdentity` fails with the owner-mismatch error exactly
when the claim owner differs from the identity's address; when they agree
it proceeds to hashing and signing and returns the built request. -/
theorem spec_C9 (ng : Nat → String) (claim : ClaimData) (identity : IdentityData)
    (legs : AttestedClaimList) (deleg : Option String) :
    (fromClaimAndIdentity ng claim identity legs deleg = .error .ownerMismatch ↔
      claim.owner ≠ some identity.address) ∧
    (claim.owner = some identity.address → keysNodup claim.contents →
      validateLegitimations legs = .ok () →
      fromClaimAndIdentity ng claim identity legs deleg =
        .ok (buildReq ng claim identity legs deleg)) := by
  constructor
  · by_cases how : claim.owner = some identity.address
    · simp only [fromClaimAndIdentity, if_pos how]
      constructor
      · intro h
        cases hv : (buildReq ng claim identity legs deleg).verifyData with
        | ok b => rw [hv] at h; simp at h
        | error e => rw [hv] at h; simp at h
      · intro h; exact absurd how h
    · simp [fromClaimAndIdentity, if_neg how, how]
  · intro how hnd hlegs
    exact fromClaimAndIdentity_ok ng claim identity legs deleg how hnd hlegs

/-- Witness for C9: the mismatch direction and the success direction at
concrete inputs. -/
theorem spec_C9_witness :
    fromClaimAndIdentity ngStream wClaim wIdent .nil none =
      .ok (buildReq ngStream wClaim wIdent .nil none) :=
  (spec_C9 ngStream wClaim wIdent .nil none).2 (by rfl) (by decide) (by rfl)

theorem chainReq_succ (n : Nat) :
    chainReq (n + 1) = buildReq ngStream ⟨"0xlink", [], some "chain-addr"⟩ ⟨"chain-addr"⟩
      (.cons (chainReq n) ⟨(chainReq n).rootHash, "0xlink", "attester-addr", false, none⟩ .nil)
      none := rfl

theorem chain_verifies : ∀ n : Nat, (chainReq n).verifyData = .ok true := by
  intro n
  induction n with
  | zero => exact buildReq_verifyData _ _ _ _ _ rfl (by decide) rfl
  | succ n ih =>
    rw [chainReq_succ]
    apply buildReq_verifyData _ _ _ _ _ rfl (by decide)
    simp [validateLegitimations, ih]

theorem chain_depth : ∀ n : Nat, (chainReq n).legDepth = n := by
  intro n
  induction n with
  | zero => rfl
  | succ n ih =>
    rw [chainReq_succ]
    simp [buildReq, RequestForAttestation.legDepth, legsDepth, ih]

/-- C6 (amended): verification recursively verifies every legitimation, but
the code enforces no depth bound and defines no LegitimationChainTooDeep
error: an otherwise valid legitimation chain of every depth verifies
successfully. -/
theorem spec_C6 (n : Nat) :
    (chainReq n).verifyData = .ok true ∧ (chainReq n).legDepth = n :=
  ⟨chain_verifies n, chain_depth n⟩

/-- Counterexample to C6 as stated: a valid chain of depth 6 verifies with
no depth error, and no finite bound exists past which verification of a
deeper chain stops succeeding. -/
theorem spec_C6_counterexample :
    (chainReq 6).verifyData = .ok true ∧ (chainReq 6).legDepth = 6 ∧
    ¬ ∃ bound : Nat, ∀ r : RequestForAttestation,
        bound < r.legDepth → r.verifyData ≠ .ok true := by
  refine ⟨chain_verifies 6, chain_depth 6, ?_⟩
  rintro ⟨b, hb⟩
  exact hb (chainReq (b + 1)) (by rw [chain_depth]; omega) (chain_verifies (b + 1))

theorem not_contains_false_eq_all {α : Type} (l : List α) (f : α → Bool) :
    (!(l.map f).contains false) = l.all f := by
  induction l with
  | nil => rfl
  | cons a t ih =>
    cases hfa : f a <;> simp [List.all_cons, hfa, ← ih]

/-- C3: plain-mode verification returns verified=false with an empty claims
list on a count mismatch between presented claims and requested property
sets; otherwise the verified flag is the conjunction over positional slots
of the disclosed-superset check and the per-claim verification; a false
verdict always comes with an empty claims list. -/
theorem spec_C3 (acs : List PresentedClaim) (s : VerifierSession) :
    (acs.length ≠ s.requestedProperties.length →
      verifyPublicPresentation acs s = (false, [])) ∧
    (acs.length = s.requestedProperties.length →
      (verifyPublicPresentation acs s).1 =
        (s.requestedProperties.zip acs).all (fun p => slotVerified p.1 p.2)) ∧
    ((verifyPublicPresentation acs s).1 = false →
      (verifyPublicPresentation acs s).2 = []) := by
  refine ⟨?_, ?_, ?_⟩
  · intro h
    unfold verifyPublicPresentation
    rw [if_pos h]
  · intro h
    unfold verifyPublicPresentation
    rw [if_neg (fun hc => hc h)]
    exact not_contains_false_eq_all _ _
  · intro h
    unfold verifyPublicPresentation at h ⊢
    by_cases hl : acs.length ≠ s.requestedProperties.length
    · rw [if_pos hl]
    · rw [if_neg hl] at h ⊢
      simp only at h ⊢
      rw [h]
      exact if_neg (by simp)

/-- Witness for C3 at concrete presentations: a count mismatch, a matching
two-slot presentation and the empty-claims consequence. -/
theorem spec_C3_witness :
    (([⟨["name"], true⟩] : List PresentedClaim).length ≠
        (VerifierSession.mk [] true).requestedProperties.length →
      verifyPublicPresentation [⟨["name"], true⟩] ⟨[], true⟩ = (false, [])) ∧
    (([⟨["name"], true⟩] : List PresentedClaim).length =
        (VerifierSession.mk [] true).requestedProperties.length →
      (verifyPublicPresentation [⟨["name"], true⟩] ⟨[], true⟩).1 =
        ((VerifierSession.mk [] true).requestedProperties.zip
          [⟨["name"], true⟩]).all (fun p => slotVerified p.1 p.2)) ∧
    ((verifyPublicPresentation [⟨["name"], true⟩] ⟨[], true⟩).1 = false →
      (verifyPublicPresentation [⟨["name"], true⟩] ⟨[], true⟩).2 = []) :=
  spec_C3 [⟨["name"], true⟩] ⟨[], true⟩

/-- C10: the disclosed-property paths computed in plain mode always contain
`claim.cTypeHash` and `claim.owner` whatever the presented claim discloses,
so a slot whose requested paths are among these two passes its property
check for every presented claim, leaving only the per-claim verification. -/
theorem spec_C10 (ac : PresentedClaim) (req : PartReq)
    (hreq : ∀ p ∈ req.properties, p = "claim.cTypeHash" ∨ p = "claim.owner") :
    (rawProperties ac).contains "claim.cTypeHash" = true ∧
    (rawProperties ac).contains "claim.owner" = true ∧
    slotVerified req ac = ac.verifyResult := by
  refine ⟨?_, ?_, ?_⟩
  · simp [rawProperties]
  · simp [rawProperties]
  · unfold slotVerified
    have hall : req.properties.all (fun p => (rawProperties ac).contains p) = true := by
      rw [List.all_eq_true]
      intro p hp
      rcases hreq p hp with rfl | rfl <;> simp [rawProperties]
    rw [hall, Bool.true_and]

/-- Witness for C10: a presented claim disclosing only `age` (owner possibly
redacted) satisfies a slot requesting only the always-present paths. -/
theorem spec_C10_witness :
    (rawProperties ⟨["age"], true⟩).contains "claim.cTypeHash" = true ∧
    (rawProperties ⟨["age"], true⟩).contains "claim.owner" = true ∧
    slotVerified ⟨none, ["claim.cTypeHash", "claim.owner"]⟩ ⟨["age"], true⟩ =
      (PresentedClaim.mk ["age"] true).verifyResult :=
  spec_C10 ⟨["age"], true⟩ ⟨none, ["claim.cTypeHash", "claim.owner"]⟩ (by
    intro p hp
    simpa using hp)

/-- C5 (amended): on a privacy-enhanced presentation the typeguards on the
accumulators and attester keys run first and a failure throws the
privacy-enhancement verification error naming which input is missing; when
both typeguards pass but the session does not allow privacy enhancement the
function returns verified=false with no claims instead of throwing the
message-type error, which is reserved for unknown message types. -/
theorem spec_C5 (p t : String) (s : VerifierSession) (accs : Option (List AccElem))
    (keys : Option (List AttKeyElem)) (g : Bool × List String) :
    ((accumulatorArrTypeguard accs = false ∨ publicAttesterArrTypeguard keys = false) →
      verifyPresentation (.submitClaimsPE p) s accs keys g =
        .error (.peVerification (!accumulatorArrTypeguard accs)
          (!publicAttesterArrTypeguard keys))) ∧
    (accumulatorArrTypeguard accs = true → publicAttesterArrTypeguard keys = true →
      s.allowedPrivacyEnhancement = false →
      verifyPresentation (.submitClaimsPE p) s accs keys g = .ok (false, [])) ∧
    (verifyPresentation (.otherType t) s accs keys g = .error (.messageType t)) := by
  refine ⟨?_, ?_, rfl⟩
  · intro h
    rcases h with h | h <;> simp [verifyPresentation, h]
  · intro h1 h2 h3
    simp [verifyPresentation, h1, h2, h3]

/-- Witness for C5: missing accumulators are reported by name, and a
disallowed privacy-enhanced presentation with well-typed inputs yields
verified=false rather than an error. -/
theorem spec_C5_witness :
    verifyPresentation (.submitClaimsPE "proof") ⟨[], true⟩ none (some [⟨true⟩])
      (true, []) = .error (.peVerification true false) :=
  (spec_C5 "proof" "unknown" ⟨[], true⟩ none (some [⟨true⟩]) (true, [])).1 (Or.inl rfl)

/-- Counterexample to C5 as stated: a privacy-enhanced presentation with
well-typed accumulators and keys but a session that does not allow privacy
enhancement is answered with verified=false and no claims — no
message-type error is thrown. -/
theorem spec_C5_counterexample :
    verifyPresentation (.submitClaimsPE "proof") ⟨[], false⟩
      (some [⟨true⟩]) (some [⟨true⟩]) (true, ["zk-claim"]) = .ok (false, []) := rfl

/-- C7 (amended): the credential stores a spread (shallow) copy of the
caller's request: the privacy-enhancement slot is cleared and every other
field — including the references to the claim, hash tree and legitimation
substructures — is copied verbatim, so those substructures stay shared with
the caller's object. -/
theorem spec_C7 (r : ReqObj) :
    (credentialStoredReq r).privacyEnhancement = none ∧
    (credentialStoredReq r).claimRef = r.claimRef ∧
    (credentialStoredReq r).legitimationsRef = r.legitimationsRef ∧
    (credentialStoredReq r).claimOwnerRef = r.claimOwnerRef ∧
    (credentialStoredReq r).claimHashTreeRef = r.claimHashTreeRef ∧
    (credentialStoredReq r).cTypeHashRef = r.cTypeHashRef ∧
    (credentialStoredReq r).rootHash = r.rootHash ∧
    (credentialStoredReq r).claimerSignature = r.claimerSignature ∧
    (credentialStoredReq r).delegationId = r.delegationId := by
  refine ⟨rfl, rfl, rfl, rfl, rfl, rfl, rfl, rfl, rfl⟩

/-- Counterexample to C7 as stated: at a concrete request whose claim is
object 1, the stored request's claim field still references object 1 — the
substructure is shared with the caller, not deep-copied. -/
theorem spec_C7_counterexample :
    (credentialStoredReq ⟨1, 2, 3, 4, 5, "0xroot", "0xsig", none, some 7⟩).claimRef =
      (ReqObj.mk 1 2 3 4 5 "0xroot" "0xsig" none (some 7)).claimRef ∧
    (credentialStoredReq ⟨1, 2, 3, 4, 5, "0xroot", "0xsig", none, some 7⟩).privacyEnhancement =
      none :=
  ⟨rfl, rfl⟩

theorem lookup_map_cond (P : String → Prop) [DecidablePred P] (g : NonceHash → NonceHash) :
    ∀ (t : List (String × NonceHash)) (k : String),
    (t.map (fun kv => if P kv.1 then (kv.1, g kv.2) else kv)).lookup k =
      if P k then (t.lookup k).map g else t.lookup k
  | [], k => by by_cases hPk : P k <;> simp [List.lookup, hPk]
  | (a, nh) :: rest, k => by
    have ih := lookup_map_cond P g rest k
    simp only [List.map_cons]
    by_cases hP : P a
    · rw [if_pos hP]
      by_cases hk : k = a
      · subst hk
        simp [List.lookup, if_pos hP]
      · have hbeq : (k == a) = false := beq_eq_false_iff_ne.mpr hk
        simp only [List.lookup, hbeq]
        exact ih
    · rw [if_neg hP]
      by_cases hk : k = a
      · subst hk
        simp [List.lookup, if_neg hP]
      · have hbeq : (k == a) = false := beq_eq_false_iff_ne.mpr hk
        simp only [List.lookup, hbeq]
        exact ih

theorem keys_map_cond {β : Type} (P : String → Prop) [DecidablePred P]
    (g : β → β) (t : List (String × β)) :
    (t.map (fun kv => if P kv.1 then (kv.1, g kv.2) else kv)).map Prod.fst =
      t.map Prod.fst := by
  induction t with
  | nil => rfl
  | cons a rest ih =>
    by_cases hP : P a.1 <;> simp [hP, ih]

theorem hashes_map_modify (P : String → Prop) [DecidablePred P]
    (t : List (String × NonceHash)) :
    (t.map (fun kv => if P kv.1 then (kv.1, (⟨none, kv.2.hash⟩ : NonceHash)) else kv)).map
        (fun kv => kv.2.hash) =
      t.map (fun kv => kv.2.hash) := by
  induction t with
  | nil => rfl
  | cons a rest ih =>
    by_cases hP : P a.1 <;> simp [hP, ih]

theorem getHashLeaves_modify (P : String → Prop) [DecidablePred P]
    (co ct : NonceHash) (tree : List (String × NonceHash)) (legs : AttestedClaimList)
    (deleg : Option String) :
    getHashLeaves co ct
        (tree.map (fun kv => if P kv.1 then (kv.1, (⟨none, kv.2.hash⟩ : NonceHash)) else kv))
        legs deleg =
      getHashLeaves co ct tree legs deleg := by
  unfold getHashLeaves
  rw [hashes_map_modify]

theorem filter_step (k : String) (rest : List String) (c : List (String × String)) :
    List.filter (fun kv => decide (kv.1 ∉ rest))
        (List.filter (fun kv => decide (kv.1 ≠ k)) c) =
      List.filter (fun kv => decide (kv.1 ∉ k :: rest)) c := by
  rw [List.filter_filter]
  apply List.filter_congr
  intro a _
  by_cases h1 : a.1 = k <;> by_cases h2 : a.1 ∈ rest <;>
    simp [h1, h2, List.mem_cons]

theorem map_step (k : String) (rest : List String) (t : List (String × NonceHash)) :
    (t.map (fun kv => if kv.1 = k then (kv.1, (⟨none, kv.2.hash⟩ : NonceHash)) else kv)).map
        (fun kv => if kv.1 ∈ rest then (kv.1, (⟨none, kv.2.hash⟩ : NonceHash)) else kv) =
      t.map (fun kv => if kv.1 ∈ k :: rest then (kv.1, (⟨none, kv.2.hash⟩ : NonceHash)) else kv) := by
  rw [List.map_map]
  apply List.map_congr_left
  intro a _
  by_cases h1 : a.1 = k <;> by_cases h2 : a.1 ∈ rest <;>
    simp [Function.comp, h1, h2, List.mem_cons]

/-- Result shape of `removeClaimProperties` over a property list: the
non-kept plaintext values are deleted from the claim contents and the
nonces of their tree leaves are deleted, while the leaf hashes, the root
hash, the signature and everything else stay untouched. -/
def redactProps (removed : List String) : RequestForAttestation → RequestForAttestation
  | .mk claim legs co sig tree ct root deleg =>
    .mk { claim with contents := claim.contents.filter (fun kv => decide (kv.1 ∉ removed)) }
      legs co sig
      (tree.map (fun kv => if kv.1 ∈ removed then (kv.1, ⟨none, kv.2.hash⟩) else kv))
      ct root deleg

theorem removeClaimProperties_eq : ∀ (removed : List String) (claim : ClaimData)
    (legs : AttestedClaimList) (co : NonceHash) (sig : SignatureData)
    (tree : List (String × NonceHash)) (ct : NonceHash) (root : HashData)
    (deleg : Option String),
    (∀ p ∈ removed, (tree.lookup p).isSome) →
    removeClaimProperties (.mk claim legs co sig tree ct root deleg) removed =
      .ok (redactProps removed (.mk claim legs co sig tree ct root deleg))
  | [], claim, legs, co, sig, tree, ct, root, deleg, _ => by
    simp [removeClaimProperties, redactProps, List.foldlM]
  | k :: rest, claim, legs, co, sig, tree, ct, root, deleg, hsub => by
    have hk : (tree.lookup k).isSome := hsub k (List.mem_cons_self _ _)
    have hstep : removeClaimProperty (.mk claim legs co sig tree ct root deleg) k =
        .ok (.mk { claim with contents := claim.contents.filter (fun kv => decide (kv.1 ≠ k)) }
          legs co sig
          (tree.map (fun kv => if kv.1 = k then (kv.1, ⟨none, kv.2.hash⟩) else kv))
          ct root deleg) := by
      simp [removeClaimProperty, hk]
    have hrest : ∀ p ∈ rest,
        ((tree.map (fun kv => if kv.1 = k then (kv.1, ⟨none, kv.2.hash⟩) else kv)).lookup
          p).isSome := by
      intro p hp
      rw [lookup_map_cond (fun s => s = k) (fun nh => ⟨none, nh.hash⟩) tree p]
      by_cases hpk : p = k
      · rw [if_pos hpk]
        subst hpk
        obtain ⟨x, hx⟩ := Option.isSome_iff_exists.mp (hsub p (List.mem_cons_self _ _))
        rw [hx]
        rfl
      · rw [if_neg hpk]
        exact hsub p (List.mem_cons_of_mem _ hp)
    have ih := removeClaimProperties_eq rest
      { claim with contents := claim.contents.filter (fun kv => decide (kv.1 ≠ k)) }
      legs co sig
      (tree.map (fun kv => if kv.1 = k then (kv.1, ⟨none, kv.2.hash⟩) else kv))
      ct root deleg hrest
    simp only [removeClaimProperties, List.foldlM] at ih ⊢
    rw [hstep]
    simp only [exceptBindOk] at ih ⊢
    rw [ih]
    simp only [redactProps]
    rw [filter_step, map_step]

theorem buildReq_def (ng : Nat → String) (claim : ClaimData) (identity : IdentityData)
    (legs : AttestedClaimList) (deleg : Option String) :
    buildReq ng claim identity legs deleg =
      .mk claim legs (generateHash (ng 0) identity.address)
        ⟨identity.address,
          calculateRootHash (generateHash (ng 0) identity.address)
            (generateHash (ng 1) claim.cTypeHash)
            (generateHashTree ng 2 claim.contents) legs deleg⟩
        (generateHashTree ng 2 claim.contents) (generateHash (ng 1) claim.cTypeHash)
        (calculateRootHash (generateHash (ng 0) identity.address)
          (generateHash (ng 1) claim.cTypeHash)
          (generateHashTree ng 2 claim.contents) legs deleg) deleg := rfl

theorem redact_buildReq_verifyData (ng : Nat → String) (claim : ClaimData)
    (identity : IdentityData) (legs : AttestedClaimList) (deleg : Option String)
    (removed : List String)
    (how : claim.owner = some identity.address)
    (hnd : keysNodup claim.contents)
    (hlegs : validateLegitimations legs = .ok ()) :
    (redactProps removed (buildReq ng claim identity legs deleg)).verifyData = .ok true ∧
    (redactProps removed (buildReq ng claim identity legs deleg)).removeClaimOwner.verifyData =
      .error .signatureUnverifiable := by
  have hcc : checkClaimContents (claim.contents.filter (fun kv => decide (kv.1 ∉ removed)))
      ((generateHashTree ng 2 claim.contents).map
        (fun kv => if kv.1 ∈ removed then (kv.1, ⟨none, kv.2.hash⟩) else kv)) = .ok () := by
    apply checkClaimContents_ok
    intro kv hkv
    have hmem := (List.mem_filter.mp hkv).1
    have hnot : kv.1 ∉ removed := by
      have := (List.mem_filter.mp hkv).2
      simpa using this
    rw [lookup_map_cond (fun s => s ∈ removed) (fun nh => ⟨none, nh.hash⟩) _ kv.1, if_neg hnot]
    exact lookup_generateHashTree ng claim.contents 2 hnd kv.1 kv.2 hmem
  have hkey : ∀ (o : Option String),
      calculateRootHash ⟨some (ng 0), HashData.nonced (ng 0) identity.address⟩
        ⟨some (ng 1), HashData.nonced (ng 1) claim.cTypeHash⟩
        (generateHashTree ng 2 claim.contents) legs deleg =
      calculateRootHash ⟨o, HashData.nonced (ng 0) identity.address⟩
        ⟨some (ng 1), HashData.nonced (ng 1) claim.cTypeHash⟩
        ((generateHashTree ng 2 claim.contents).map
          (fun kv => if kv.1 ∈ removed then (kv.1, ⟨none, kv.2.hash⟩) else kv)) legs deleg := by
    intro o
    simp only [calculateRootHash, getHashLeaves]
    rw [hashes_map_modify]
  simp only [decide_not] at hcc
  constructor
  · rw [buildReq_def]
    simp only [redactProps]
    simp [RequestForAttestation.verifyData, how, generateHash, validateNoncedHash,
      recomputeNonced, hcc, hlegs, cryptoVerify, hkey (some (ng 0))]
  · rw [buildReq_def]
    simp only [redactProps, RequestForAttestation.removeClaimOwner]
    simp [RequestForAttestation.verifyData, how, generateHash, validateNoncedHash,
      recomputeNonced, hcc, hlegs, cryptoVerify, hkey none]

/-- C2 (amended): redacting any subset of field names deletes exactly the
non-kept plaintext values and their leaves' nonces, keeps every leaf hash in
the tree, leaves the root hash and claimer signature unchanged, and
`verifyData` still succeeds; `removeClaimOwner` likewise deletes exactly the
owner plaintext and the owner leaf's nonce and leaves the root hash
unchanged, but after it `verifyData` fails at the signature check, because
the owner address the signature is checked against is gone. -/
theorem spec_C2 (ng : Nat → String) (claim : ClaimData) (identity : IdentityData)
    (legs : AttestedClaimList) (deleg : Option String) (removed : List String)
    (how : claim.owner = some identity.address)
    (hnd : keysNodup claim.contents)
    (hlegs : validateLegitimations legs = .ok ())
    (hsub : ∀ p ∈ removed, p ∈ claim.contents.map Prod.fst) :
    removeClaimProperties (buildReq ng claim identity legs deleg) removed =
      .ok (redactProps removed (buildReq ng claim identity legs deleg)) ∧
    (redactProps removed (buildReq ng claim identity legs deleg)).claim.contents =
      claim.contents.filter (fun kv => decide (kv.1 ∉ removed)) ∧
    (redactProps removed (buildReq ng claim identity legs deleg)).claimHashTree =
      (buildReq ng claim identity legs deleg).claimHashTree.map
        (fun kv => if kv.1 ∈ removed then (kv.1, ⟨none, kv.2.hash⟩) else kv) ∧
    (redactProps removed (buildReq ng claim identity legs deleg)).rootHash =
      (buildReq ng claim identity legs deleg).rootHash ∧
    (redactProps removed (buildReq ng claim identity legs deleg)).claimerSignature =
      (buildReq ng claim identity legs deleg).claimerSignature ∧
    (redactProps removed (buildReq ng claim identity legs deleg)).verifyData = .ok true ∧
    (redactProps removed (buildReq ng claim identity legs deleg)).removeClaimOwner.claim.owner =
      none ∧
    (redactProps removed (buildReq ng claim identity legs
      deleg)).removeClaimOwner.claimOwner.nonce = none ∧
    (redactProps removed (buildReq ng claim identity legs deleg)).removeClaimOwner.rootHash =
      (buildReq ng claim identity legs deleg).rootHash ∧
    (redactProps removed (buildReq ng claim identity legs deleg)).removeClaimOwner.verifyData =
      .error .signatureUnverifiable := by
  have hsub' : ∀ p ∈ removed, ((generateHashTree ng 2 claim.contents).lookup p).isSome := by
    intro p hp
    obtain ⟨kv, hkv, hfst⟩ := List.mem_map.mp (hsub p hp)
    obtain ⟨n, hn⟩ := lookup_generateHashTree ng claim.contents 2 hnd kv.1 kv.2 hkv
    rw [← hfst, hn]
    rfl
  refine ⟨?_, rfl, rfl, rfl, rfl,
    (redact_buildReq_verifyData ng claim identity legs deleg removed how hnd hlegs).1,
    rfl, rfl, rfl,
    (redact_buildReq_verifyData ng claim identity legs deleg removed how hnd hlegs).2⟩
  rw [buildReq_def]
  exact removeClaimProperties_eq removed claim legs _ _ _ _ _ _ hsub'

/-- Witness for C2 (amended) at the concrete two-field claim, redacting
`age`. -/
theorem spec_C2_witness :
    removeClaimProperties (buildReq ngStream wClaim wIdent .nil none) ["age"] =
      .ok (redactProps ["age"] (buildReq ngStream wClaim wIdent .nil none)) ∧
    (redactProps ["age"] (buildReq ngStream wClaim wIdent .nil none)).claim.contents =
      wClaim.contents.filter (fun kv => decide (kv.1 ∉ ["age"])) ∧
    (redactProps ["age"] (buildReq ngStream wClaim wIdent .nil none)).claimHashTree =
      (buildReq ngStream wClaim wIdent .nil none).claimHashTree.map
        (fun kv => if kv.1 ∈ ["age"] then (kv.1, ⟨none, kv.2.hash⟩) else kv) ∧
    (redactProps ["age"] (buildReq ngStream wClaim wIdent .nil none)).rootHash =
      (buildReq ngStream wClaim wIdent .nil none).rootHash ∧
    (redactProps ["age"] (buildReq ngStream wClaim wIdent .nil none)).claimerSignature =
      (buildReq ngStream wClaim wIdent .nil none).claimerSignature ∧
    (redactProps ["age"] (buildReq ngStream wClaim wIdent .nil none)).verifyData = .ok true ∧
    (redactProps ["age"] (buildReq ngStream wClaim wIdent .nil none)).removeClaimOwner.claim.owner =
      none ∧
    (redactProps ["age"] (buildReq ngStream wClaim wIdent
      .nil none)).removeClaimOwner.claimOwner.nonce = none ∧
    (redactProps ["age"] (buildReq ngStream wClaim wIdent .nil none)).removeClaimOwner.rootHash =
      (buildReq ngStream wClaim wIdent .nil none).rootHash ∧
    (redactProps ["age"] (buildReq ngStream wClaim wIdent .nil none)).removeClaimOwner.verifyData =
      .error .signatureUnverifiable :=
  spec_C2 ngStream wClaim wIdent .nil none ["age"] (by rfl) (by decide) (by rfl)
    (by intro p hp; simp at hp; subst hp; simp [wClaim])

/-- Counterexample to C2 as stated: after redacting `age` and additionally
removing the claim owner, `verifyData` does not succeed — it fails at the
signature check, since the owner address needed to check the claimer
signature has been deleted. -/
theorem spec_C2_counterexample :
    removeClaimProperties (buildReq ngStream wClaim wIdent .nil none) ["age"] =
      .ok (redactProps ["age"] (buildReq ngStream wClaim wIdent .nil none)) ∧
    (redactProps ["age"] (buildReq ngStream wClaim wIdent .nil none)).removeClaimOwner.verifyData =
      .error .signatureUnverifiable := ⟨rfl, rfl⟩

theorem keys_map_keyfix {β : Type} (f : String × β → String × β)
    (hf : ∀ kv, (f kv).1 = kv.1) (t : List (String × β)) :
    (t.map f).map Prod.fst = t.map Prod.fst := by
  induction t with
  | nil => rfl
  | cons a rest ih => simp [hf, ih]

theorem lookup_map_keyfix {f : String × NonceHash → String × NonceHash}
    (hf : ∀ kv, (f kv).1 = kv.1) :
    ∀ (t : List (String × NonceHash)) (k : String),
    (t.map f).lookup k = (t.lookup k).map (fun nh => (f (k, nh)).2)
  | [], k => by simp [List.lookup]
  | (a, nh) :: rest, k => by
    have ih := lookup_map_keyfix hf rest k
    have hb1 : (f (a, nh)).1 = a := hf (a, nh)
    rcases hFk : f (a, nh) with ⟨b1, b2⟩
    rw [hFk] at hb1
    by_cases hk : k = a
    · subst hk
      simp only [List.map_cons, hFk, List.lookup, hb1, beq_self_eq_true]
      simp [hFk]
    · have hbeq : (k == a) = false := beq_eq_false_iff_ne.mpr hk
      simp only [List.map_cons, hFk, List.lookup, hb1, hbeq]
      exact ih

theorem checkClaimContents_error : ∀ (cs : List (String × String))
    (tree : List (String × NonceHash)) (k w n : String) (nh : NonceHash),
    keysNodup cs → (k, w) ∈ cs →
    (∀ a b, (a, b) ∈ cs → a ≠ k → ∃ m, tree.lookup a = some ⟨some m, .nonced m b⟩) →
    tree.lookup k = some nh → nh.nonce = some n → nh.hash ≠ .nonced n w →
    checkClaimContents cs tree = .error (.hashMismatch ("hash tree property " ++ k))
  | [], _, _, _, _, _, _, hm, _, _, _, _ => absurd hm (List.not_mem_nil _)
  | (a, b) :: rest, tree, k, w, n, nh, hnd, hm, hpass, hlk, hn, hne => by
    have hnd' := hnd
    simp only [keysNodup, List.map_cons, List.nodup_cons] at hnd'
    by_cases hak : a = k
    · subst hak
      have hwb : w = b := by
        rcases List.mem_cons.mp hm with h | h
        · exact (Prod.mk.inj h).2
        · exact absurd (List.mem_map.mpr ⟨(a, w), h, rfl⟩) hnd'.1
      subst hwb
      simp only [checkClaimContents, hlk, validateNoncedHash, hn]
      rw [if_neg (by simpa [recomputeNonced] using hne)]
      rfl
    · obtain ⟨m, hmA⟩ := hpass a b (List.mem_cons_self _ _) (fun h => hak h)
      have hmem : (k, w) ∈ rest := by
        rcases List.mem_cons.mp hm with h | h
        · exact absurd ((Prod.mk.inj h).1).symm hak
        · exact h
      simp only [checkClaimContents, hmA, validateNoncedHash, recomputeNonced]
      rw [if_pos trivial]
      simp only [exceptBindOk]
      exact checkClaimContents_error rest tree k w n nh hnd'.2
        hmem (fun a' b' hab hak' => hpass a' b' (List.mem_cons_of_mem _ hab) hak') hlk hn hne

/-- C4: after an honest build, mutating a claim field value, the claim
owner, the schema hash, or a leaf hash of the claim hash tree — without
recomputing the root hash — makes `verifyData` throw the mismatch error of
the altered component instead of silently returning false. -/
theorem spec_C4 (ng : Nat → String) (claim : ClaimData) (identity : IdentityData)
    (legs : AttestedClaimList) (deleg : Option String)
    (k v v' o' c' : String) (h' : HashData) (nh₀ : NonceHash)
    (how : claim.owner = some identity.address)
    (hnd : keysNodup claim.contents)
    (hmem : (k, v) ∈ claim.contents)
    (hv' : v' ≠ v) (ho' : o' ≠ identity.address) (hc' : c' ≠ claim.cTypeHash)
    (hlk : (buildReq ng claim identity legs deleg).claimHashTree.lookup k = some nh₀)
    (hh' : h' ≠ nh₀.hash) :
    ((buildReq ng claim identity legs deleg).setContentValue k v').verifyData =
      .error (.hashMismatch ("hash tree property " ++ k)) ∧
    ((buildReq ng claim identity legs deleg).setOwnerValue o').verifyData =
      .error (.hashMismatch "Claim Owner") ∧
    ((buildReq ng claim identity legs deleg).setCTypeValue c').verifyData =
      .error (.hashMismatch "Claim CType Hash") ∧
    ((buildReq ng claim identity legs deleg).setTreeHash k h').verifyData =
      .error (.hashMismatch ("hash tree property " ++ k)) := by
  obtain ⟨m, hm⟩ := lookup_generateHashTree ng claim.contents 2 hnd k v hmem
  have hnh : nh₀ = ⟨some m, .nonced m v⟩ := by
    rw [buildReq_def, RequestForAttestation.claimHashTree_mk, hm] at hlk
    exact (Option.some.inj hlk).symm
  refine ⟨?_, ?_, ?_, ?_⟩
  · have hccErr : checkClaimContents
        (claim.contents.map (fun kv => if kv.1 = k then (kv.1, v') else kv))
        (generateHashTree ng 2 claim.contents) =
        .error (.hashMismatch ("hash tree property " ++ k)) := by
      apply checkClaimContents_error _ _ k v' m ⟨some m, .nonced m v⟩
      · show ((claim.contents.map (fun kv => if kv.1 = k then (kv.1, v') else kv)).map
          Prod.fst).Nodup
        rw [keys_map_keyfix _ (fun kv => by by_cases hkk : kv.1 = k <;> simp [hkk])]
        exact hnd
      · exact List.mem_map.mpr ⟨(k, v), hmem, by simp⟩
      · intro a b hab hak
        obtain ⟨⟨x1, x2⟩, hx, hfx⟩ := List.mem_map.mp hab
        by_cases hx1 : x1 = k
        · rw [if_pos hx1] at hfx
          exact absurd (hx1 ▸ (Prod.mk.inj hfx).1.symm : a = k) hak
        · rw [if_neg hx1] at hfx
          obtain ⟨h1, h2⟩ := Prod.mk.inj hfx
          subst h1
          subst h2
          exact lookup_generateHashTree ng claim.contents 2 hnd x1 x2 hx
      · exact hm
      · rfl
      · intro heq
        exact hv' (HashData.nonced.inj heq).2.symm
    rw [buildReq_def]
    simp only [RequestForAttestation.setContentValue]
    simp [RequestForAttestation.verifyData, how, generateHash, validateNoncedHash,
      recomputeNonced, hccErr]
  · rw [buildReq_def]
    simp only [RequestForAttestation.setOwnerValue]
    have ho2 : ¬(identity.address = o') := fun h => ho' h.symm
    simp [RequestForAttestation.verifyData, generateHash, validateNoncedHash,
      recomputeNonced, ho2]
  · rw [buildReq_def]
    simp only [RequestForAttestation.setCTypeValue]
    have hc2 : ¬(claim.cTypeHash = c') := fun h => hc' h.symm
    simp [RequestForAttestation.verifyData, how, generateHash, validateNoncedHash,
      recomputeNonced, hc2]
  · have hf : ∀ kv : String × NonceHash,
        ((fun kv => if kv.1 = k then (kv.1, (⟨kv.2.nonce, h'⟩ : NonceHash)) else kv) kv).1 =
          kv.1 := by
      intro kv
      by_cases hkk : kv.1 = k <;> simp [hkk]
    have hccErr : checkClaimContents claim.contents
        ((generateHashTree ng 2 claim.contents).map
          (fun kv => if kv.1 = k then (kv.1, ⟨kv.2.nonce, h'⟩) else kv)) =
        .error (.hashMismatch ("hash tree property " ++ k)) := by
      apply checkClaimContents_error _ _ k v m ⟨some m, h'⟩ hnd hmem
      · intro a b hab hak
        obtain ⟨m', hm'⟩ := lookup_generateHashTree ng claim.contents 2 hnd a b hab
        refine ⟨m', ?_⟩
        rw [lookup_map_keyfix hf, hm']
        simp [fun h => hak h]
      · rw [lookup_map_keyfix hf, hm]
        simp
      · rfl
      · have : nh₀.hash = .nonced m v := by rw [hnh]
        rw [← this]
        exact hh'
    rw [buildReq_def]
    simp only [RequestForAttestation.setTreeHash]
    simp [RequestForAttestation.verifyData, how, generateHash, validateNoncedHash,
      recomputeNonced, hccErr]

/-- Witness for C4: each of the four mutations at the concrete two-field
claim produces its component's mismatch error. -/
theorem spec_C4_witness :
    ((buildReq ngStream wClaim wIdent .nil none).setContentValue "name" "Mallory").verifyData =
      .error (.hashMismatch ("hash tree property " ++ "name")) ∧
    ((buildReq ngStream wClaim wIdent .nil none).setOwnerValue "evil-addr").verifyData =
      .error (.hashMismatch "Claim Owner") ∧
    ((buildReq ngStream wClaim wIdent .nil none).setCTypeValue "0xother").verifyData =
      .error (.hashMismatch "Claim CType Hash") ∧
    ((buildReq ngStream wClaim wIdent .nil none).setTreeHash "name"
        (.raw "bogus")).verifyData =
      .error (.hashMismatch ("hash tree property " ++ "name")) :=
  spec_C4 ngStream wClaim wIdent .nil none "name" "Ralph" "Mallory" "evil-addr" "0xother"
    (.raw "bogus") ⟨some (ngStream 2), .nonced (ngStream 2) "Ralph"⟩
    (by rfl) (by decide) (by decide) (by decide) (by decide) (by decide) (by rfl) (by decide)
